import Mathlib

/-!
Verification development for the shadcn-import-helper extension core
(`src/extension.ts`, multi-folder variant).

The TypeScript source is shallowly embedded:
* regex execution of the generated import pattern is modelled by an explicit
  scanner over character lists (`execGenerated`), faithful to the leftmost,
  non-overlapping `RegExp.exec` loop with the `g` flag;
* the file system is a parameter: `stat` returns `Except Unit Unit`
  (`.error` models a thrown file-not-found, which the source catches);
* the pending queue, installed-state cache and in-flight flag are explicit
  state (`SysState`), and the event-loop interleavings relevant to the claims
  are transitions of a step function (`stepM`).
-/

/-! ## Characters and small JS string helpers -/

/-- The `\x7b` character (left curly brace), used by the generated pattern. -/
def lbrace : Char := Char.ofNat 123

/-- The `\x7d` character (right curly brace). -/
def rbrace : Char := Char.ofNat 125

/-- The single-quote character. -/
def squoteC : Char := Char.ofNat 39

/-- The single-quote character as a string. -/
def squote : String := String.singleton squoteC

/-- ASCII approximation of the JS `\s` character class. -/
def isJsSpace (c : Char) : Bool :=
  c = ' ' || c = '\t' || c = '\n' || c = '\r' || c = Char.ofNat 11 || c = Char.ofNat 12

/-- Is `c` one of the two quote characters matched by the pattern's quote class? -/
def isQuote (c : Char) : Bool := c = '"' || c = squoteC

/-- JS `String.prototype.trim` on a character list (ASCII whitespace). -/
def jsTrim (cs : List Char) : List Char :=
  ((cs.dropWhile isJsSpace).reverse.dropWhile isJsSpace).reverse

/-- JS `String.prototype.split(",")` on a character list: split at every comma,
    keeping empty segments; always returns at least one segment. -/
def jsSplitComma : List Char → List (List Char)
  | [] => [[]]
  | c :: cs =>
    if c = ',' then [] :: jsSplitComma cs
    else
      match jsSplitComma cs with
      | [] => [[c]]
      | h :: t => (c :: h) :: t

/-- `[...new Set(xs)]`: first-occurrence-preserving deduplication, with the
    already-seen elements as an accumulator. -/
def jsDedupAux (seen : List String) : List String → List String
  | [] => []
  | x :: xs => if x ∈ seen then jsDedupAux seen xs else x :: jsDedupAux (x :: seen) xs

/-- `[...new Set(xs)]` as used on the `components` arrays in the source. -/
def jsDedup (l : List String) : List String := jsDedupAux [] l

theorem jsSplitComma_ne_nil (cs : List Char) : jsSplitComma cs ≠ [] := by
  induction cs with
  | nil => simp [jsSplitComma]
  | cons c cs ih =>
    by_cases h : c = ','
    · simp [jsSplitComma, h]
    · simp only [jsSplitComma, if_neg h]
      cases hs : jsSplitComma cs <;> simp

theorem jsDedupAux_mem (l : List String) :
    ∀ seen x, x ∈ jsDedupAux seen l ↔ x ∈ l ∧ x ∉ seen := by
  induction l with
  | nil => intro seen x; simp [jsDedupAux]
  | cons a l ih =>
    intro seen x
    by_cases ha : a ∈ seen
    · simp only [jsDedupAux, if_pos ha, ih, List.mem_cons]
      constructor
      · rintro ⟨hx, hn⟩; exact ⟨Or.inr hx, hn⟩
      · rintro ⟨hx | hx, hn⟩
        · exact absurd (hx ▸ ha) hn
        · exact ⟨hx, hn⟩
    · simp only [jsDedupAux, if_neg ha, List.mem_cons, ih]
      by_cases hxa : x = a
      · subst hxa; tauto
      · tauto

theorem jsDedupAux_nodup (l : List String) : ∀ seen, (jsDedupAux seen l).Nodup := by
  induction l with
  | nil => intro seen; simp [jsDedupAux]
  | cons a l ih =>
    intro seen
    by_cases ha : a ∈ seen
    · simpa [jsDedupAux, ha] using ih seen
    · simp only [jsDedupAux, if_neg ha, List.nodup_cons]
      refine ⟨fun hmem => ?_, ih _⟩
      exact ((jsDedupAux_mem l _ a).1 hmem).2 (List.mem_cons_self a seen)

theorem jsDedup_mem (l : List String) (x : String) : x ∈ jsDedup l ↔ x ∈ l := by
  simp [jsDedup, jsDedupAux_mem]

theorem jsDedup_nodup (l : List String) : (jsDedup l).Nodup := jsDedupAux_nodup l []

/-! ## The generated import pattern and its execution

The source builds, in `getConfig` / `updateRegexFromFolders`:

  import\s*\x7b([^\x7d]+)\x7d\s*from\s*["']@/components/(?:f1|f2|...)/([^"']+)["']

`execGenerated` implements `RegExp.exec` of that pattern with the `g` flag:
repeated leftmost matching, resuming after each match. Every sub-pattern is
deterministic (each `X*`/`X+` is bounded by a character excluded from `X`),
except the folder alternation, which tries alternatives left to right with
backtracking into the rest of the pattern (`tryFolders`). -/

/-- The generated regex source string (value of the TS template literal). -/
def genRegex (folders : List String) : String :=
  "import\\s*\x7b([^\x7d]+)\x7d\\s*from\\s*[\"" ++ squote ++ "]@/components/(?:"
    ++ String.intercalate "|" folders ++ ")/([^\"" ++ squote ++ "]+)[\"" ++ squote ++ "]"

/-- Match a literal character sequence at the start of `cs`. -/
def dropLit : List Char → List Char → Option (List Char)
  | [], cs => some cs
  | _ :: _, [] => none
  | l :: ls, c :: cs => if c = l then dropLit ls cs else none

/-- The alternation `(?:f1|f2|...)/([^"']+)["']`: try each folder alternative in
    order; on success of the whole tail return (capture group 2, rest). -/
def tryFolders (cs : List Char) : List String → Option (List Char × List Char)
  | [] => none
  | f :: fs =>
    match dropLit (f.data ++ ['/']) cs with
    | none => tryFolders cs fs
    | some r1 =>
      let g2 := r1.takeWhile (fun c => !(isQuote c))
      if g2.isEmpty then tryFolders cs fs
      else
        match r1.drop g2.length with
        | [] => tryFolders cs fs
        | c :: r2 => if isQuote c then some (g2, r2) else tryFolders cs fs

/-- Try to match the generated pattern anchored at the start of `cs`; on
    success return ((group 1, group 2), rest after the match). -/
def tryMatchAt (folders : List String) (cs : List Char) :
    Option ((String × String) × List Char) :=
  match dropLit "import".data cs with
  | none => none
  | some c1 =>
    match dropLit [lbrace] (c1.dropWhile isJsSpace) with
    | none => none
    | some c3 =>
      let g1 := c3.takeWhile (fun c => c ≠ rbrace)
      if g1.isEmpty then none
      else
        match dropLit [rbrace] (c3.drop g1.length) with
        | none => none
        | some c4 =>
          match dropLit "from".data (c4.dropWhile isJsSpace) with
          | none => none
          | some c6 =>
            match c6.dropWhile isJsSpace with
            | [] => none
            | q :: c8 =>
              if isQuote q then
                match dropLit "@/components/".data c8 with
                | none => none
                | some c9 =>
                  match tryFolders c9 folders with
                  | none => none
                  | some (g2, rest) => some ((⟨g1⟩, ⟨g2⟩), rest)
              else none

/-- The `while ((match = importRegex.exec(text)) !== null)` loop: find the
    leftmost match at or after the current position, emit its capture groups,
    resume after the match. `fuel` bounds the character positions visited. -/
def execLoop (folders : List String) : Nat → List Char → List (String × String)
  | 0, _ => []
  | _ + 1, [] => []
  | fuel + 1, c :: rest =>
    match tryMatchAt folders (c :: rest) with
    | some (g, after) => g :: execLoop folders fuel after
    | none => execLoop folders fuel rest

/-- Execute the generated pattern for `folders` globally over `text`. -/
def execGenerated (folders : List String) (text : String) : List (String × String) :=
  execLoop folders text.data.length text.data

/-! ## `parseImports` (src/extension.ts lines 248-262) -/

/-- The loop body and final dedup of `parseImports`, given the list of regex
    matches (capture group 1, capture group 2): for each match, split group 1
    on commas and trim each symbol, then push `componentFile` once per symbol;
    finally `[...new Set(components)]`. -/
def parseImportsFromMatches (ms : List (String × String)) : List String :=
  jsDedup (ms.flatMap fun m =>
    ((jsSplitComma m.fst.data).map (fun c => jsTrim c)).map (fun _ => m.snd))

/-- `parseImports`: `new RegExp(config.importRegex, "g")` may throw (a pattern
    that fails to compile); the exception propagates uncaught. `compiled`
    is the outcome of that construction: a matcher on texts, or the thrown
    error. On success the match loop and dedup run. -/
def parseImports (compiled : Except Unit (String → List (String × String)))
    (text : String) : Except Unit (List String) :=
  match compiled with
  | .error e => .error e
  | .ok exec => .ok (parseImportsFromMatches (exec text))

/-- `parseImports` under the default generated pattern for `folders`. -/
def parseImportsDefault (folders : List String) (text : String) :
    Except Unit (List String) :=
  parseImports (.ok (execGenerated folders)) text

/-! ## Configuration model (src/extension.ts lines 5-49)

`Settings` models the stored values behind `vscode.workspace.getConfiguration`:
`none` means the user has not set the key, so `config.get` falls back to the
given default. `Config` mirrors the `ShadcnConfig` interface. -/

inductive PM
  | npm
  | pnpm
  | bun
deriving DecidableEq, Repr

structure Config where
  componentFolders : List String
  importRegex : String
  packageManager : PM
deriving DecidableEq, Repr

structure Settings where
  componentFolders : Option (List String)
  importRegexStored : Option String
  packageManager : Option PM
deriving DecidableEq, Repr

/-- `getConfig` (lines 13-29): folders default to `["ui"]`, the import regex
    defaults to the pattern generated from the folders, the package manager
    defaults to npm. -/
def getConfigModel (st : Settings) : Config :=
  let componentFolders := st.componentFolders.getD ["ui"]
  { componentFolders := componentFolders
    importRegex := st.importRegexStored.getD (genRegex componentFolders)
    packageManager := st.packageManager.getD .npm }

/-- `updateRegexFromFolders` (lines 32-49): re-derive the pattern from the
    stored folders; if it differs from `currentConfig.importRegex`, write it
    into the stored `importRegex` setting. -/
def updateRegexFromFolders (st : Settings) (current : Config) : Settings :=
  let componentFolders := st.componentFolders.getD ["ui"]
  let newRegex := genRegex componentFolders
  if newRegex = current.importRegex then st
  else { st with importRegexStored := some newRegex }

/-! ## Installed-Component Oracle (src/extension.ts lines 199-242)

`stat` models `vscode.workspace.fs.stat`: `.error` is a thrown exception
(file not found), which the source catches. Paths are segment lists relative
to the workspace root. The `Except Unit` result type of the oracle records
the possibility of an uncaught exception; the theorems show none escapes.
Alongside the boolean, the oracle returns the list of paths it actually
stat-ed, in order, for the call-count/probe-order claims. -/

/-- The `for (const folder of config.componentFolders)` loop body. Note the
    faithful translation of the `.jsx` probe: the source spreads
    `...config.componentFolders` (all folders) into a single path, not the
    current `folder`. -/
def checkFolders (stat : List String → Except Unit Unit) (allFolders : List String)
    (name : String) : List String → Except Unit (Bool × List (List String))
  | [] => .ok (false, [])
  | folder :: rest =>
    let tsxPath := ["components", folder, name ++ ".tsx"]
    match stat tsxPath with
    | .ok _ => .ok (true, [tsxPath])
    | .error _ =>
      let jsxPath := "components" :: allFolders ++ [name ++ ".jsx"]
      match stat jsxPath with
      | .ok _ => .ok (true, [tsxPath, jsxPath])
      | .error _ =>
        match checkFolders stat allFolders name rest with
        | .ok (b, probes) => .ok (b, tsxPath :: jsxPath :: probes)
        | .error e => .error e

/-- `checkComponentInstalled`: with no workspace folder, return `false`
    (line 204); otherwise run the folder loop. -/
def checkComponentInstalled (hasWorkspace : Bool) (stat : List String → Except Unit Unit)
    (folders : List String) (name : String) : Except Unit (Bool × List (List String)) :=
  if hasWorkspace then checkFolders stat folders name folders else .ok (false, [])

theorem checkFolders_never_throws (stat : List String → Except Unit Unit)
    (allFolders : List String) (name : String) (fs : List String) :
    ∃ r, checkFolders stat allFolders name fs = .ok r := by
  induction fs with
  | nil => exact ⟨_, rfl⟩
  | cons folder rest ih =>
    simp only [checkFolders]
    cases stat ["components", folder, name ++ ".tsx"] with
    | ok _ => exact ⟨_, rfl⟩
    | error _ =>
      cases stat ("components" :: allFolders ++ [name ++ ".jsx"]) with
      | ok _ => exact ⟨_, rfl⟩
      | error _ =>
        obtain ⟨⟨b, probes⟩, hr⟩ := ih
        exact ⟨_, by rw [hr]⟩

/-! ## Installed-State Cache (src/extension.ts lines 51-77)

The cache is an association list looked up on the first matching key;
`Map.set` is modelled by prepending (which shadows older entries). -/

/-- `ComponentCache.isInstalled` (lines 64-72): on a cache hit return the
    memoized boolean (no stat probes); on a miss run the oracle, store the
    result, and return it. A rejection of the oracle would propagate without
    caching. -/
def cacheIsInstalled (hasWorkspace : Bool) (stat : List String → Except Unit Unit)
    (folders : List String) (cache : List (String × Bool)) (name : String) :
    Except Unit (Bool × List (String × Bool) × List (List String)) :=
  match List.lookup name cache with
  | some b => .ok (b, cache, [])
  | none =>
    match checkComponentInstalled hasWorkspace stat folders name with
    | .error e => .error e
    | .ok (b, probes) => .ok (b, (name, b) :: cache, probes)

/-! ## ComponentManager and the install flow (src/extension.ts lines 79-197)

`SysState` bundles the manager's pending set and in-flight flag with the
singleton cache. `Out` records the user-visible effects: informational and
error messages, and the text sent to the installer terminal. The async
install cycle is split at its suspension point: `.request` covers
`installPendingComponents` up to and including `installComponents` sending
the command (or throwing for a missing workspace, which the `catch` absorbs
and the `finally` then clears the flag), and `.complete` covers the
continuation after the awaited decorative wait: clear the queue, clear the
flag. -/

structure SysState where
  pending : List String
  isInstalling : Bool
  cache : List (String × Bool)
deriving DecidableEq, Repr

inductive Out
  | info (msg : String)
  | errorMsg (msg : String)
  | command (text : String)
deriving DecidableEq, Repr

/-- JS `Set.prototype.add`: insertion-ordered, no duplicates. -/
def setAdd (l : List String) (x : String) : List String :=
  if x ∈ l then l else l ++ [x]

/-- `path.join("components", installFolder)` with the posix separator, where
    `installFolder` is `config.componentFolders[0] || "ui"` (line 148): the
    first folder, falling back to `"ui"` when the list is empty or its first
    element is the empty string (both are falsy). -/
def installFolderOf : List String → String
  | [] => "ui"
  | f :: _ => if f = "" then "ui" else f

def componentPathOf (folders : List String) : String :=
  "components" ++ "/" ++ installFolderOf folders

/-- The `switch (config.packageManager)` of `installComponents`
    (lines 154-164). -/
def installCommand (pm : PM) (components : String) (componentPath : String) : String :=
  match pm with
  | .pnpm => "pnpm dlx shadcn-ui@latest add " ++ components ++ " --path " ++ componentPath
  | .bun => "bunx shadcn-ui@latest add " ++ components ++ " --path " ++ componentPath
  | .npm => "npx shadcn-ui@latest add " ++ components ++ " --path " ++ componentPath

/-- Events interleaved by the host event loop. `request` carries the
    workspace root path (`none` models no open workspace folder). -/
inductive Ev
  | add (c : String)
  | request (root : Option String)
  | complete

/-- One manager step. `.request` is `installPendingComponents` up to its
    suspension point (lines 107-125 and the prefix of `installComponents`);
    `.complete` is the resumption (lines 126-137). `.add` is
    `addComponent` (lines 93-96). -/
def stepM (cfg : Config) (s : SysState) : Ev → SysState × List Out
  | .add c => ({ s with pending := setAdd s.pending c }, [])
  | .request root =>
    if s.pending.isEmpty then
      (s, [.info "No pending shadcn components to install."])
    else if s.isInstalling then
      (s, [.info "Component installation is already in progress."])
    else
      match root with
      | some rootPath =>
        ({ s with isInstalling := true },
          [.command ("cd \"" ++ rootPath ++ "\" && "
            ++ installCommand cfg.packageManager
                (String.intercalate " " s.pending)
                (componentPathOf cfg.componentFolders))])
      | none =>
        (s, [.errorMsg "Error installing components: No workspace folder found"])
  | .complete =>
    if s.isInstalling then
      ({ s with pending := [], isInstalling := false },
        [.info "Components installed successfully."])
    else (s, [])

/-- One iteration of the reconciliation loop of the `installShadcnComponents`
    command (lines 370-374): query the cached oracle for one scanned
    component and queue it if not installed. The oracle cannot reject, so
    the `.error` fallthrough is inert. -/
def scanStep (hasWorkspace : Bool) (stat : List String → Except Unit Unit)
    (folders : List String) (st : SysState) (c : String) : SysState :=
  match cacheIsInstalled hasWorkspace stat folders st.cache c with
  | .error _ => st
  | .ok (b, cache2, _) =>
    if b then { st with cache := cache2 }
    else { st with cache := cache2, pending := setAdd st.pending c }

/-- The scan-triggered reconciliation (lines 359-374): `parsed` is the
    outcome of `parseImports` (or of the directory scan that ran it); a
    thrown pattern-compile error aborts the operation before any state is
    touched. Otherwise each scanned component is reconciled in order. -/
def scanAndQueueRun (hasWorkspace : Bool) (stat : List String → Except Unit Unit)
    (folders : List String) (parsed : Except Unit (List String)) (s : SysState) :
    SysState × Option Unit :=
  match parsed with
  | .error e => (s, some e)
  | .ok comps => (comps.foldl (scanStep hasWorkspace stat folders) s, none)

/-- States of the extension reachable from activation, under a fixed
    configuration: any interleaving of `addComponent`, install requests,
    install completions, and scan-and-queue operations. -/
inductive Reachable (cfg : Config) : SysState → Prop
  | init : Reachable cfg { pending := [], isInstalling := false, cache := [] }
  | mgr (e : Ev) {s : SysState} : Reachable cfg s → Reachable cfg (stepM cfg s e).fst
  | scan (hasWorkspace : Bool) (stat : List String → Except Unit Unit)
      (parsed : Except Unit (List String)) {s : SysState} :
      Reachable cfg s →
      Reachable cfg (scanAndQueueRun hasWorkspace stat cfg.componentFolders parsed s).fst

theorem setAdd_ne_nil (l : List String) (x : String) : setAdd l x ≠ [] := by
  unfold setAdd
  split
  · rename_i h
    exact List.ne_nil_of_mem h
  · simp

theorem scanStep_isInstalling (hasWorkspace : Bool)
    (stat : List String → Except Unit Unit) (folders : List String)
    (st : SysState) (c : String) :
    (scanStep hasWorkspace stat folders st c).isInstalling = st.isInstalling ∧
    (st.pending ≠ [] → (scanStep hasWorkspace stat folders st c).pending ≠ []) := by
  unfold scanStep
  cases h : cacheIsInstalled hasWorkspace stat folders st.cache c with
  | error _ => exact ⟨rfl, fun hp => hp⟩
  | ok r =>
    obtain ⟨b, cache2, probes⟩ := r
    by_cases hb : b <;> simp [hb, setAdd_ne_nil]

theorem scanFold_isInstalling (hasWorkspace : Bool)
    (stat : List String → Except Unit Unit) (folders : List String)
    (comps : List String) :
    ∀ s : SysState,
      (comps.foldl (scanStep hasWorkspace stat folders) s).isInstalling = s.isInstalling ∧
      (s.pending ≠ [] →
        (comps.foldl (scanStep hasWorkspace stat folders) s).pending ≠ []) := by
  induction comps with
  | nil => exact fun s => ⟨rfl, fun hp => hp⟩
  | cons c cs ih =>
    intro s
    simp only [List.foldl_cons]
    obtain ⟨h1, h2⟩ := ih (scanStep hasWorkspace stat folders s c)
    obtain ⟨g1, g2⟩ := scanStep_isInstalling hasWorkspace stat folders s c
    exact ⟨h1.trans g1, fun hp => h2 (g2 hp)⟩

theorem scanAndQueueRun_isInstalling (hasWorkspace : Bool)
    (stat : List String → Except Unit Unit) (folders : List String)
    (parsed : Except Unit (List String)) (s : SysState) :
    (scanAndQueueRun hasWorkspace stat folders parsed s).fst.isInstalling = s.isInstalling ∧
    (s.pending ≠ [] →
      (scanAndQueueRun hasWorkspace stat folders parsed s).fst.pending ≠ []) := by
  cases parsed with
  | error e => exact ⟨rfl, fun h => h⟩
  | ok comps => exact scanFold_isInstalling hasWorkspace stat folders comps s

/-- In every reachable state, the in-flight flag is only set while the
    pending queue is nonempty (the flag is set under the
    `pendingComponents.size === 0` early return). -/
theorem reachable_installing_pending {cfg : Config} {s : SysState}
    (hr : Reachable cfg s) : s.isInstalling = true → s.pending ≠ [] := by
  induction hr with
  | init => intro h; simp at h
  | mgr e hr ih =>
    cases e with
    | add c =>
      intro _
      simp only [stepM]
      exact setAdd_ne_nil _ _
    | request root =>
      rename_i t
      simp only [stepM]
      by_cases hp : t.pending.isEmpty
      · simp only [hp, if_true]; exact ih
      · simp only [hp, Bool.false_eq_true, if_false]
        by_cases hi : t.isInstalling
        · simp only [hi, if_true]; exact fun _ => ih hi
        · simp only [hi, Bool.false_eq_true, if_false]
          cases root with
          | some rootPath =>
            intro _
            simpa [List.isEmpty_iff] using hp
          | none => exact ih
    | complete =>
      rename_i t
      simp only [stepM]
      by_cases hi : t.isInstalling
      · simp [hi]
      · simp only [hi, Bool.false_eq_true, if_false]
        exact fun h => absurd h (by simp [hi])
  | scan hasWorkspace stat parsed hr ih =>
    intro h
    obtain ⟨h1, h2⟩ := scanAndQueueRun_isInstalling hasWorkspace stat
      cfg.componentFolders parsed _
    exact h2 (ih (h1 ▸ h))

/-! ## Recursive Source Scanner (src/extension.ts lines 264-283)

An `Entry` is one result of `vscode.workspace.fs.readDirectory`. For a file,
`doc` is the outcome of `openTextDocument`: `.error` models the promise
rejecting (the file disappeared mid-scan); `.ok ms` abstracts the opened
text by the matches the compiled pattern produces on it. -/

inductive Entry
  | file (name : String) (doc : Except Unit (List (String × String)))
  | dir (name : String) (entries : List Entry)

/-- File-extension eligibility filter (line 271): JS `name.endsWith(ext)`,
    modelled on character lists. -/
def eligible (name : String) : Bool :=
  ".tsx".data.isSuffixOf name.data || ".jsx".data.isSuffixOf name.data

mutual
/-- The per-directory loop of `scanDirectory`, producing the `components`
    array before the final dedup. An exception from `openTextDocument` (or
    from a nested scan) propagates: there is no try/catch in the source. -/
def scanEntries : List Entry → Except Unit (List String)
  | [] => .ok []
  | e :: rest => do
    let head ← scanEntry e
    let tl ← scanEntries rest
    .ok (head ++ tl)

/-- What one directory entry contributes to `components`. -/
def scanEntry : Entry → Except Unit (List String)
  | .file name doc =>
    if eligible name then
      match doc with
      | .error e => .error e
      | .ok ms => .ok (parseImportsFromMatches ms)
    else .ok []
  | .dir _ sub => scanDirectory sub

/-- `scanDirectory`: aggregate over the entries, then `[...new Set(...)]`. -/
def scanDirectory (entries : List Entry) : Except Unit (List String) :=
  match scanEntries entries with
  | .error e => .error e
  | .ok comps => .ok (jsDedup comps)
end

/-! ## Claim theorems -/

theorem perMatch_component_mem (m : String × String) (x : String) :
    (x ∈ ((jsSplitComma m.fst.data).map (fun c => jsTrim c)).map (fun _ => m.snd)) ↔
      x = m.snd := by
  constructor
  · intro hx
    obtain ⟨a, _, ha⟩ := List.mem_map.mp hx
    exact ha.symm
  · rintro rfl
    obtain ⟨h, t, hht⟩ := List.exists_cons_of_ne_nil (jsSplitComma_ne_nil m.fst.data)
    rw [hht]
    simp

/-- C1: `parseImports` returns a duplicate-free list whose members are exactly
    the capture-group-2 segments of the matches — one identifier per match,
    however many comma-separated symbols capture group 1 names; concretely,
    importing symbols A, B from `card` and C from `button` yields exactly
    `card, button`, and two import statements for the same component file
    yield a single-element result. -/
theorem parseImports_components :
    (∀ ms : List (String × String),
      (parseImportsFromMatches ms).Nodup ∧
      ∀ s, s ∈ parseImportsFromMatches ms ↔ s ∈ ms.map Prod.snd) ∧
    parseImportsDefault ["ui"]
        "import \x7bA, B\x7d from \"@/components/ui/card\"\nimport \x7bC\x7d from \"@/components/ui/button\""
      = .ok ["card", "button"] ∧
    parseImportsDefault ["ui"]
        "import \x7bA\x7d from \"@/components/ui/card\"\nimport \x7bB\x7d from \"@/components/ui/card\""
      = .ok ["card"] ∧
    (["card"] : List String).length = 1 := by
  refine ⟨fun ms => ⟨jsDedup_nodup _, fun s => ?_⟩, rfl, rfl, rfl⟩
  rw [parseImportsFromMatches, jsDedup_mem, List.mem_flatMap]
  constructor
  · rintro ⟨m, hm, hs⟩
    exact List.mem_map.mpr ⟨m, hm, ((perMatch_component_mem m s).mp hs).symm⟩
  · intro hs
    obtain ⟨m, hm, hms⟩ := List.mem_map.mp hs
    exact ⟨m, hm, (perMatch_component_mem m s).mpr hms.symm⟩

/-! ### C2: the Installed-Component Oracle's probe paths -/

/-- Modelled from the spec's words for comparison ("testing the existence of
    both `<identifier>.tsx` and `<identifier>.jsx` under `components/<that
    same folder>`"): the per-folder check the claim describes. -/
def checkFoldersPerFolderClaim (stat : List String → Except Unit Unit)
    (name : String) : List String → Bool
  | [] => false
  | folder :: rest =>
    match stat ["components", folder, name ++ ".tsx"] with
    | .ok _ => true
    | .error _ =>
      match stat ["components", folder, name ++ ".jsx"] with
      | .ok _ => true
      | .error _ => checkFoldersPerFolderClaim stat name rest

/-- A file system in which the only existing path is
    `components/lib/button.jsx`. -/
def statJsxLib : List String → Except Unit Unit :=
  fun p => if p = ["components", "lib", "button.jsx"] then .ok () else .error ()

/-- C2: with folders `[ui, lib]` and `button` present only as
    `components/lib/button.jsx`, the source's check probes
    `components/ui/lib/button.jsx` (all folders joined into one path) as its
    `.jsx` candidate on every iteration — never `components/lib/button.jsx` —
    and reports the component not installed, whereas the claimed per-folder
    probe finds it. The check itself never throws, for any store. -/
theorem checkComponentInstalled_jsx_path_bug :
    checkComponentInstalled true statJsxLib ["ui", "lib"] "button"
      = .ok (false,
        [["components", "ui", "button.tsx"], ["components", "ui", "lib", "button.jsx"],
         ["components", "lib", "button.tsx"], ["components", "ui", "lib", "button.jsx"]]) ∧
    checkFoldersPerFolderClaim statJsxLib "button" ["ui", "lib"] = true ∧
    (∀ (hasWorkspace : Bool) (stat : List String → Except Unit Unit)
        (folders : List String) (name : String),
      ∃ r, checkComponentInstalled hasWorkspace stat folders name = .ok r) := by
  refine ⟨rfl, rfl, fun hasWorkspace stat folders name => ?_⟩
  cases hasWorkspace with
  | false => exact ⟨_, rfl⟩
  | true =>
    simpa [checkComponentInstalled] using
      checkFolders_never_throws stat folders name folders

/-! ### C4: memoization of `isInstalled` -/

/-- C4: a call to the cached oracle yields a cache that already holds the
    answer; a second call with the same arguments and no intervening
    invalidation returns the identical boolean, leaves the cache unchanged,
    and performs no stat probe (empty probe trace). A hit returns the
    memoized boolean without touching storage, and a miss stores the
    computed boolean before returning. -/
theorem isInstalled_memoized (hasWorkspace : Bool)
    (stat : List String → Except Unit Unit) (folders : List String)
    (cache : List (String × Bool)) (name : String) (b : Bool)
    (c : List (String × Bool)) (tr : List (List String))
    (h : cacheIsInstalled hasWorkspace stat folders cache name = .ok (b, c, tr)) :
    cacheIsInstalled hasWorkspace stat folders c name = .ok (b, c, []) ∧
    List.lookup name c = some b ∧
    (∀ b0, List.lookup name cache = some b0 → b = b0 ∧ c = cache ∧ tr = []) ∧
    (List.lookup name cache = none → c = (name, b) :: cache) := by
  unfold cacheIsInstalled at h ⊢
  cases hl : List.lookup name cache with
  | some b0 =>
    rw [hl] at h
    simp only [Except.ok.injEq, Prod.mk.injEq] at h
    obtain ⟨hb, hc, htr⟩ := h
    subst hb; subst hc; subst htr
    rw [hl]
    refine ⟨rfl, rfl, fun b1 hb1 => ?_, fun habs => ?_⟩
    · cases hb1; exact ⟨rfl, rfl, rfl⟩
    · cases habs
  | none =>
    rw [hl] at h
    cases hc : checkComponentInstalled hasWorkspace stat folders name with
    | error e => rw [hc] at h; cases h
    | ok r =>
      obtain ⟨b2, probes⟩ := r
      rw [hc] at h
      simp only [Except.ok.injEq, Prod.mk.injEq] at h
      obtain ⟨hb, hcc, htr⟩ := h
      subst hb; subst htr; subst hcc
      have hlook : List.lookup name ((name, b2) :: cache) = some b2 := by
        simp [List.lookup]
      rw [hlook]
      refine ⟨rfl, rfl, fun b1 hb1 => ?_, fun _ => rfl⟩
      cases hb1

/-- Concrete instantiation of `isInstalled_memoized`: empty cache, a store
    with no files, component `button`. -/
theorem isInstalled_memoized_witness :
    cacheIsInstalled true (fun _ => .error ()) ["ui"] [] "button"
      = .ok (false, [("button", false)],
        [["components", "ui", "button.tsx"], ["components", "ui", "button.jsx"]]) ∧
    (cacheIsInstalled true (fun _ => .error ()) ["ui"] [("button", false)] "button"
      = .ok (false, [("button", false)], []) ∧
     List.lookup "button" [("button", false)] = some false ∧
     (∀ b0, List.lookup "button" ([] : List (String × Bool)) = some b0 →
        false = b0 ∧ [("button", false)] = ([] : List (String × Bool)) ∧
        ([["components", "ui", "button.tsx"], ["components", "ui", "button.jsx"]]
          : List (List String)) = []) ∧
     (List.lookup "button" ([] : List (String × Bool)) = none →
        [("button", false)] = [("button", false)] ++ ([] : List (String × Bool)))) := by
  refine ⟨rfl, ?_⟩
  simpa using isInstalled_memoized true (fun _ => .error ()) ["ui"] [] "button"
    false [("button", false)]
    [["components", "ui", "button.tsx"], ["components", "ui", "button.jsx"]] rfl

/-! ### C10: no workspace folder open -/

/-- C10: with no workspace folder, `checkComponentInstalled` returns `false`
    with no probes and no error, and a cache miss then memoizes `false` for
    the identifier. -/
theorem noWorkspace_false_and_cached (stat : List String → Except Unit Unit)
    (folders : List String) (name : String) (cache : List (String × Bool))
    (h : List.lookup name cache = none) :
    checkComponentInstalled false stat folders name = .ok (false, []) ∧
    cacheIsInstalled false stat folders cache name
      = .ok (false, (name, false) :: cache, []) := by
  refine ⟨rfl, ?_⟩
  unfold cacheIsInstalled
  rw [h]
  rfl

/-- Concrete instantiation of `noWorkspace_false_and_cached`. -/
theorem noWorkspace_false_and_cached_witness :
    List.lookup "button" ([] : List (String × Bool)) = none ∧
    (checkComponentInstalled false (fun _ => .error ()) ["ui"] "button"
        = .ok (false, []) ∧
     cacheIsInstalled false (fun _ => .error ()) ["ui"] [] "button"
        = .ok (false, [("button", false)], [])) :=
  ⟨rfl, noWorkspace_false_and_cached (fun _ => .error ()) ["ui"] "button" [] rfl⟩

/-! ### C3: at most one drain/install cycle at a time -/

/-- The configuration used for concrete runs: folder `ui`, npm. -/
def cfgUiNpm : Config :=
  { componentFolders := ["ui"], importRegex := genRegex ["ui"], packageManager := .npm }

/-- The state reached by scanning `button` into the queue and issuing a first
    install request: the in-flight flag is set and the queue still holds
    `button`. -/
def sFlight : SysState :=
  (stepM cfgUiNpm
    (stepM cfgUiNpm { pending := [], isInstalling := false, cache := [] }
      (.add "button")).fst
    (.request (some "/proj"))).fst

/-- C3: in any reachable state whose install flag is set, a second install
    request (with or without a workspace) returns the state unchanged — the
    queue is not cleared or otherwise mutated, no command is emitted — and
    reports "already in progress"; and the flag is clear after the cycle's
    exits: after completion, and after the missing-workspace failure path. -/
theorem installPending_mutual_exclusion (cfg : Config) (s t : SysState)
    (hr : Reachable cfg s) (hi : s.isInstalling = true) :
    (∀ root, stepM cfg s (.request root)
      = (s, [.info "Component installation is already in progress."])) ∧
    (stepM cfg t .complete).fst.isInstalling = false ∧
    (t.isInstalling = false → (stepM cfg t (.request none)).fst.isInstalling = false) := by
  refine ⟨fun root => ?_, ?_, fun ht => ?_⟩
  · have hp : s.pending ≠ [] := reachable_installing_pending hr hi
    simp only [stepM, List.isEmpty_iff, hp, if_false, hi, if_true]
  · simp only [stepM]
    by_cases hti : t.isInstalling <;> simp [hti]
  · simp only [stepM]
    by_cases htp : t.pending.isEmpty <;> simp [htp, ht]

/-- Concrete instantiation of `installPending_mutual_exclusion` at the state
    reached by queueing `button` and issuing one install request. -/
theorem installPending_mutual_exclusion_witness :
    (∀ root, stepM cfgUiNpm sFlight (.request root)
      = (sFlight, [.info "Component installation is already in progress."])) ∧
    (stepM cfgUiNpm { pending := [], isInstalling := false, cache := [] }
      .complete).fst.isInstalling = false ∧
    (SysState.isInstalling { pending := [], isInstalling := false, cache := [] } = false →
      (stepM cfgUiNpm { pending := [], isInstalling := false, cache := [] }
        (.request none)).fst.isInstalling = false) :=
  installPending_mutual_exclusion cfgUiNpm sFlight
    { pending := [], isInstalling := false, cache := [] }
    (Reachable.mgr (.request (some "/proj"))
      (Reachable.mgr (.add "button") Reachable.init))
    rfl

/-! ### C5: the Install-Command Formatter and the end-to-end drain -/

/-- The invocation verb of each package manager's template. -/
def installVerb : PM → String
  | .npm => "npx"
  | .pnpm => "pnpm dlx"
  | .bun => "bunx"

theorem string_append_assoc (a b c : String) : a ++ b ++ c = a ++ (b ++ c) := by
  apply String.ext
  simp [String.data_append, List.append_assoc]

/-- The post-scan state of the end-to-end scenario: `button` queued, cached
    as not installed, no install running. -/
def sQueuedBtn : SysState :=
  { pending := ["button"], isInstalling := false, cache := [("button", false)] }

/-- The same state with the install in flight. -/
def sDrainingBtn : SysState :=
  { pending := ["button"], isInstalling := true, cache := [("button", false)] }

/-- C5: every package manager's template is the invocation verb followed by
    the same fixed tokens, the space-joined identifier list, and the
    destination-path flag; concretely, from the post-scan state with queued
    identifier `button`, folder `ui` and npm, the drain emits a command
    containing the literal `button` and the path segment `components/ui`,
    and completion leaves the queue empty. -/
theorem installCommand_format_end_to_end :
    (∀ (pm : PM) (components componentPath : String),
      installCommand pm components componentPath
        = installVerb pm ++ (" shadcn-ui@latest add "
            ++ (components ++ (" --path " ++ componentPath)))) ∧
    (stepM cfgUiNpm sQueuedBtn (.request (some "/proj")))
      = (sDrainingBtn,
         [.command ("cd \"/proj\" && npx shadcn-ui@latest add button --path components/ui")]) ∧
    ("cd \"/proj\" && npx shadcn-ui@latest add button --path components/ui"
      = "cd \"/proj\" && npx shadcn-ui@latest add " ++ "button" ++ " --path components/ui") ∧
    ("cd \"/proj\" && npx shadcn-ui@latest add button --path components/ui"
      = "cd \"/proj\" && npx shadcn-ui@latest add button --path " ++ "components/ui" ++ "") ∧
    (stepM cfgUiNpm sDrainingBtn .complete).fst.pending = [] := by
  refine ⟨fun pm components componentPath => ?_, rfl, rfl, rfl, rfl⟩
  cases pm <;>
    simp only [installCommand, installVerb, ← string_append_assoc] <;> rfl

/-! ### C6: a pattern that fails to compile -/

/-- C6: when `new RegExp(config.importRegex, "g")` throws, `parseImports`
    propagates the error — it never produces a (possibly empty) result list —
    and the triggering scan-and-queue operation surfaces the error with the
    pending queue and the installed-state cache exactly as before. -/
theorem parseImports_compile_error_aborts :
    (∀ (e : Unit) (text : String), parseImports (.error e) text = .error e) ∧
    (∀ (e : Unit) (text : String), (parseImports (.error e) text).toOption = none) ∧
    (∀ (hasWorkspace : Bool) (stat : List String → Except Unit Unit)
        (folders : List String) (s : SysState) (e : Unit),
      scanAndQueueRun hasWorkspace stat folders (.error e) s = (s, some e)) :=
  ⟨fun _ _ => rfl, fun _ _ => rfl, fun _ _ _ _ _ => rfl⟩

/-! ### C7: a file-access failure mid-scan -/

/-- The directory of the counterexample: `a.tsx` disappears mid-scan
    (`openTextDocument` rejects), `b.tsx` is readable and imports `button`. -/
def cexEntries : List Entry :=
  [.file "a.tsx" (.error ()), .file "b.tsx" (.ok [("A", "button")])]

/-- C7 counterexample: with the failing `a.tsx` present, `scanDirectory`
    returns the propagated error — not the aggregated result `[button]` that
    the remaining readable file alone produces. -/
theorem scanDirectory_error_not_absorbed :
    scanDirectory cexEntries = .error () ∧
    (scanDirectory cexEntries).toOption = none ∧
    scanDirectory [.file "b.tsx" (.ok [("A", "button")])] = .ok ["button"] := by
  have ha : eligible "a.tsx" = true := by rfl
  have hb : eligible "b.tsx" = true := by rfl
  refine ⟨?_, ?_, ?_⟩
  · simp [scanDirectory, scanEntries, scanEntry, cexEntries, ha, Bind.bind, Except.bind]
  · simp only [scanDirectory, scanEntries, scanEntry, cexEntries, ha, Bind.bind,
      Except.bind, if_true]
    rfl
  · simp [scanDirectory, scanEntries, scanEntry, hb, Bind.bind, Except.bind]
    rfl

/-- C7 amended: a file-access failure during a scan is fatal to the whole
    scan: whatever the remaining entries hold, the scan of a directory whose
    first entry is an eligible file whose open fails returns that error and
    reports none of the other files' components. -/
theorem scanDirectory_error_propagates (rest : List Entry) :
    scanDirectory (.file "a.tsx" (.error ()) :: rest) = .error () := by
  have ha : eligible "a.tsx" = true := by rfl
  simp [scanDirectory, scanEntries, scanEntry, ha, Bind.bind, Except.bind]

/-! ### C8: pattern re-derivation and the importRegex override -/

/-- Stored settings after the user has set an `importRegex` override and then
    changed the component folders to `[shadcn]`. -/
def stAfterFolderChange : Settings :=
  { componentFolders := some ["shadcn"], importRegexStored := some "custom",
    packageManager := some .npm }

/-- The `currentConfig` in force before the handler runs: folders `[ui]`,
    the user's override in effect. -/
def staleCurrent : Config :=
  { componentFolders := ["ui"], importRegex := "custom", packageManager := .npm }

/-- C8 counterexample: with the user's `importRegex` override (`custom`) in
    force, a `componentFolders` change makes `updateRegexFromFolders`
    overwrite the stored override with the freshly derived default — so a
    folder-configuration change does replace a user-set override. -/
theorem updateRegex_override_overwritten_cex :
    (updateRegexFromFolders stAfterFolderChange staleCurrent).importRegexStored
      = some (genRegex ["shadcn"]) ∧
    (genRegex ["shadcn"] == "custom") = false ∧
    (getConfigModel (updateRegexFromFolders stAfterFolderChange staleCurrent)).importRegex
      = genRegex ["shadcn"] := by
  exact ⟨rfl, rfl, rfl⟩

/-- Settings with folders stored and no `importRegex` override set. -/
def settingsNoOverride (folders : List String) (pm : Option PM) : Settings :=
  { componentFolders := some folders, importRegexStored := none, packageManager := pm }

/-- C8 amended: the default pattern is re-derived from the folder
    configuration (with no override stored, `getConfig` yields the generated
    default), but an explicitly-set override does not take precedence
    permanently: whenever the folder-change handler runs while the derived
    pattern differs from the current `importRegex`, the stored `importRegex`
    — user-set or not — is overwritten with the derived default. -/
theorem updateRegex_overwrites_override (st : Settings) (cur : Config)
    (h : genRegex (st.componentFolders.getD ["ui"]) ≠ cur.importRegex) :
    (updateRegexFromFolders st cur).importRegexStored
      = some (genRegex (st.componentFolders.getD ["ui"])) ∧
    (∀ (folders : List String) (pm : Option PM),
      (getConfigModel (settingsNoOverride folders pm)).importRegex
        = genRegex folders) := by
  refine ⟨?_, fun folders pm => rfl⟩
  unfold updateRegexFromFolders
  simp [h]

/-- Concrete instantiation of `updateRegex_overwrites_override` at the
    counterexample configuration. -/
theorem updateRegex_overwrites_override_witness :
    genRegex ["shadcn"] ≠ "custom" ∧
    ((updateRegexFromFolders stAfterFolderChange staleCurrent).importRegexStored
        = some (genRegex ["shadcn"]) ∧
     (∀ (folders : List String) (pm : Option PM),
       (getConfigModel (settingsNoOverride folders pm)).importRegex
         = genRegex folders)) :=
  ⟨by decide, updateRegex_overwrites_override stAfterFolderChange staleCurrent (by decide)⟩

/-! ### C9: draining does not touch the Installed-State Cache -/

/-- C9: every manager transition — queueing, install request, completion —
    leaves the cache untouched, so an identifier cached as not installed
    stays cached as not installed across a drain; concretely, from the
    post-drain state in which `button` is still cached `false`, rescanning
    the same import re-queues `button` directly from the stale cache entry. -/
theorem installPending_cache_frame :
    (∀ (cfg : Config) (s : SysState) (root : Option String),
      (stepM cfg s (.request root)).fst.cache = s.cache) ∧
    (∀ (cfg : Config) (s : SysState), (stepM cfg s .complete).fst.cache = s.cache) ∧
    (∀ (cfg : Config) (s : SysState) (c : String),
      (stepM cfg s (.add c)).fst.cache = s.cache) ∧
    (scanAndQueueRun true (fun _ => .error ()) ["ui"] (.ok ["button"])
        { pending := [], isInstalling := false, cache := [("button", false)] }
      = ({ pending := ["button"], isInstalling := false, cache := [("button", false)] },
         none)) := by
  refine ⟨fun cfg s root => ?_, fun cfg s => ?_, fun cfg s c => rfl, rfl⟩
  · simp only [stepM]
    split
    · rfl
    · split
      · rfl
      · cases root <;> rfl
  · simp only [stepM]
    split <;> rfl
